import Mathlib

/-!
Verification of the student grade-and-management repository.

The repository holds two independent Python implementations of the same
record-keeping tool:

* `src/student_grade_manager.py` (modelled in namespace `SGM`): a list of
  `Student` objects persisted as pipe-delimited text lines, one per student.
* `src/Qwen_python_20251129_xl2h7yqnv.py` (modelled in namespace `Qwen`):
  а dict keyed by student id persisted as a JSON array of objects.

Python floats are modelled as exact rationals (`ℚ`): the claims under
verification concern control flow, validation, ordering and persistence
structure, not IEEE rounding.  Python dicts (insertion ordered since 3.7)
are modelled as association lists; console input is modelled by passing the
entered strings as arguments; the file system is modelled by an explicit
store value carried in the state.
-/

namespace Py

/-- Characters of a string.  Core string-traversal functions such as
`String.trim` and `String.split` use position-based recursion that the kernel
cannot evaluate, so every Python string operation below is modelled by
structural recursion over the character list. -/
def chars (s : String) : List Char :=
  s.data

/-- Models Python `s.strip()` on the character list: drop whitespace from both
ends.  (Python strips Unicode whitespace; the strings this program handles are
ASCII, where the two notions agree.) -/
def stripChars (cs : List Char) : List Char :=
  ((cs.dropWhile Char.isWhitespace).reverse.dropWhile Char.isWhitespace).reverse

/-- Models Python `s.strip()`. -/
def pyStrip (s : String) : String :=
  String.mk (stripChars (chars s))

/-- Models Python `s.lower()` (ASCII lowering, which agrees with Python on the
ASCII strings this program handles). -/
def pyLower (s : String) : String :=
  String.mk ((chars s).map Char.toLower)

/-- Splits a character list at every character satisfying `p`, keeping empty
groups, the way Python `s.split(sep)` with an explicit separator does. -/
def splitPred (p : Char → Bool) : List Char → List (List Char)
  | [] => [[]]
  | c :: cs =>
    if p c then [] :: splitPred p cs
    else
      match splitPred p cs with
      | g :: gs => (c :: g) :: gs
      | [] => [[c]]

/-- Models Python `s.split(sep)` for a one-character separator: every occurrence
separates, empty fields are kept, the empty string yields one empty field. -/
def pySplitChar (sep : Char) (s : String) : List String :=
  (splitPred (fun c => c == sep) (chars s)).map String.mk

/-- Models Python `s.split()` with no separator argument: split on whitespace
runs, discarding empty tokens. -/
def pySplitWhitespace (s : String) : List String :=
  ((splitPred Char.isWhitespace (chars s)).filter (fun t => t ≠ [])).map String.mk

/-- Models Python `sep.join(parts)`. -/
def pyJoin (sep : String) : List String → String
  | [] => ""
  | [x] => x
  | x :: xs => x ++ sep ++ pyJoin sep xs

/-- Numeric value of a list of decimal digit characters, most significant first.
Models the digit accumulation performed by Python when parsing a number. -/
def digitsToNat (ds : List Char) : Nat :=
  ds.foldl (fun n c => 10 * n + (c.toNat - 48)) 0

/-- Models the Python builtin `float(s)` applied to a string: strip whitespace,
then parse an optional sign, decimal digits, an optional fractional part and an
optional exponent.  Returns `none` where Python raises `ValueError`.
(The special spellings `inf` and `nan` are not produced by this program and are
treated as malformed.) -/
def pyFloat (s : String) : Option ℚ :=
  let cs0 := stripChars (chars s)
  let sgncs : ℚ × List Char :=
    match cs0 with
    | '-' :: r => (-1, r)
    | '+' :: r => (1, r)
    | _ => (1, cs0)
  let sgn := sgncs.1
  let cs1 := sgncs.2
  let intDs := cs1.takeWhile Char.isDigit
  let cs2 := cs1.dropWhile Char.isDigit
  let fraccs : List Char × List Char :=
    match cs2 with
    | '.' :: r => (r.takeWhile Char.isDigit, r.dropWhile Char.isDigit)
    | _ => ([], cs2)
  let fracDs := fraccs.1
  let cs3 := fraccs.2
  if intDs = [] ∧ fracDs = [] then none
  else
    let mant : ℚ :=
      sgn * ((digitsToNat intDs : ℚ) + (digitsToNat fracDs : ℚ) / (10 ^ fracDs.length))
    match cs3 with
    | [] => some mant
    | e :: r =>
      if e = 'e' ∨ e = 'E' then
        let esgn : Bool × List Char :=
          match r with
          | '-' :: rr => (true, rr)
          | '+' :: rr => (false, rr)
          | _ => (false, r)
        let eDs := esgn.2.takeWhile Char.isDigit
        let rest := esgn.2.dropWhile Char.isDigit
        if eDs = [] ∨ rest ≠ [] then none
        else some (if esgn.1 then mant / 10 ^ digitsToNat eDs else mant * 10 ^ digitsToNat eDs)
      else none

/-- Models `map(float, tokens)` materialised by `list(...)`: Python raises at the
first malformed token, so the whole conversion fails if any token fails. -/
def pyFloatList : List String → Option (List ℚ)
  | [] => some []
  | t :: ts =>
    match pyFloat t, pyFloatList ts with
    | some v, some vs => some (v :: vs)
    | _, _ => none

/-- Models Python `str(x)` on the float grade values handled by this program.
Grades enter the system as decimal literals and are stored exactly, so the
printed form is the decimal expansion: integral values print with a trailing
`.0` exactly as Python prints them; for a non-integral value the numerator of
the smallest decimal scaling is printed with a decimal point inserted.  A
rational whose reduced denominator divides no power of ten cannot arise from a
parsed float and falls back to the fraction form. -/
def pyFloatStr (q : ℚ) : String :=
  if q.den = 1 then toString q.num ++ ".0"
  else
    match (List.range (q.den + 1)).find? (fun k => 10 ^ k % q.den = 0) with
    | some k =>
      let scaled := q.num.natAbs * (10 ^ k / q.den)
      let digits := toString scaled
      let digits := (List.replicate (k + 1 - digits.length) '0').asString ++ digits
      let point := digits.length - k
      (if q.num < 0 then "-" else "") ++
        (digits.toList.take point).asString ++ "." ++ (digits.toList.drop point).asString
    | none => toString q.num ++ "/" ++ toString q.den

end Py

namespace SGM

/-- The `Student` class of `student_grade_manager.py`: id, name and an ordered
list of grades. -/
structure Student where
  student_id : String
  name : String
  grades : List ℚ
deriving DecidableEq, Repr

/-- Method `Student.average`: arithmetic mean of the grades, `0.0` when the
grade list is empty. -/
def Student.average (s : Student) : ℚ :=
  if s.grades = [] then 0 else s.grades.sum / s.grades.length

/-- Method `Student.status`: the simple labelling policy of this variant. -/
def Student.status (s : Student) : String :=
  if 50 ≤ s.average then "PASS" else "FAIL"

/-- Method `Student.to_record`: one pipe-delimited line terminated by a newline,
grades joined with commas (empty string when there are no grades). -/
def Student.to_record (s : Student) : String :=
  s.student_id ++ "|" ++ s.name ++ "|" ++
    Py.pyJoin "," (s.grades.map Py.pyFloatStr) ++ "\n"

/-- Static method `Student.from_record`: strip the line, split on the pipe
character, read id and name from the first two fields and parse the third field
as comma-separated floats.  Returns `none` where the Python code raises (fewer
than two fields, or a malformed grade token); the caller catches that
exception. -/
def Student.from_record (record_line : String) : Option Student :=
  match Py.pySplitChar '|' (Py.pyStrip record_line) with
  | sid :: nm :: rest =>
    match rest with
    | [] => some ⟨sid, nm, []⟩
    | p2 :: _ =>
      if p2 = "" then some ⟨sid, nm, []⟩
      else (Py.pyFloatList (Py.pySplitChar ',' p2)).map (fun gs => ⟨sid, nm, gs⟩)
  | _ => none

/-- State of the persisted `students.txt` file as seen by `load_students`:
absent, present but failing to open (e.g. unreadable permissions), or readable
with a list of lines (`for line in f`). -/
inductive FileState where
  | absent
  | unreadable
  | readable (lines : List String)

/-- Function `load_students`: absent file gives an empty list; each line is
parsed under a `try` that skips malformed lines with a printed diagnostic; the
`open` call itself is NOT under any `try`, so a file that exists but cannot be
read raises out of the function (`Except.error`). -/
def load_students : FileState → Except String (List Student)
  | .absent => .ok []
  | .unreadable => .error "IOError"
  | .readable lines => .ok (lines.filterMap Student.from_record)

/-- Function `save_students`: writes each record line in roster order.  The file
content is modelled as the list of written lines. -/
def save_students (students : List Student) : List String :=
  students.map Student.to_record

/-- Function `register_student` with the two console inputs as arguments: if any
existing student carries the entered id, registration is cancelled and the list
is untouched; otherwise a new zero-grade student is appended.  No emptiness
check is performed on either input, and nothing is written to the file.  The
returned flag reports whether a student was appended. -/
def register_student (students : List Student) (sid nm : String) :
    List Student × Bool :=
  if students.any (fun s => s.student_id == sid) then (students, false)
  else (students ++ [⟨sid, nm, []⟩], true)

/-- Extends the grade list of the first student carrying the given id, the way
the Python code mutates the object found by `next(...)`. -/
def extendFirst (sid : String) (gs : List ℚ) : List Student → List Student
  | [] => []
  | s :: rest =>
    if s.student_id == sid then { s with grades := s.grades ++ gs } :: rest
    else s :: extendFirst sid gs rest

/-- Function `input_grades` with the two console inputs as arguments: find the
first student with the entered id (failure leaves the list untouched), parse the
space-separated grade tokens as floats (a parse failure is caught and leaves the
list untouched), then extend that student with ALL parsed grades.  No range
check is performed on the grade values.  Nothing is written to the file. -/
def input_grades (students : List Student) (sid grades_str : String) :
    List Student × Bool :=
  match students.find? (fun s => s.student_id == sid) with
  | none => (students, false)
  | some _ =>
    match Py.pyFloatList (Py.pySplitWhitespace grades_str) with
    | none => (students, false)
    | some gs => (extendFirst sid gs students, true)

/-- Function `sort_students` with the console choice as argument: choice `1`
sorts the roster list IN PLACE by lowercased name ascending, choice `2` sorts it
IN PLACE by average descending (`reverse=True`); Python `list.sort` is stable,
modelled by stable insertion sort.  Any other choice leaves the list
untouched.  The returned list IS the roster afterwards. -/
def sort_students (students : List Student) (choice : String) : List Student :=
  if choice = "1" then
    List.insertionSort (fun a b => Py.pyLower a.name ≤ Py.pyLower b.name) students
  else if choice = "2" then
    List.insertionSort (fun a b => Student.average b ≤ Student.average a) students
  else students

/-- The state of one interactive session: the in-memory roster list together
with the current content of the persisted `students.txt` (as written lines). -/
structure SessionState where
  students : List Student
  file : List String
deriving DecidableEq

/-- Menu action 1: registration mutates only the in-memory list; the file is
written only by menu action 6 (save and exit). -/
def registerAction (st : SessionState) (sid nm : String) : SessionState :=
  { st with students := (register_student st.students sid nm).1 }

/-- Menu action 2: grade input mutates only the in-memory list. -/
def inputGradesAction (st : SessionState) (sid grades_str : String) : SessionState :=
  { st with students := (input_grades st.students sid grades_str).1 }

/-- Menu action 5: `list.sort` reorders the roster list itself. -/
def sortAction (st : SessionState) (choice : String) : SessionState :=
  { st with students := sort_students st.students choice }

/-- Menu action 6: only here is the file rewritten from the roster. -/
def saveAction (st : SessionState) : SessionState :=
  { st with file := save_students st.students }

end SGM

namespace Qwen

/-- The `Student` class of `Qwen_python_20251129_xl2h7yqnv.py`. -/
structure Student where
  student_id : String
  name : String
  grades : List ℚ
deriving DecidableEq, Repr

/-- Method `Student.add_grade`: appends the grade when `0 <= grade <= 100`,
otherwise raises `ValueError` leaving the grade list untouched. -/
def Student.add_grade (s : Student) (grade : ℚ) : Except String Student :=
  if 0 ≤ grade ∧ grade ≤ 100 then .ok { s with grades := s.grades ++ [grade] }
  else .error "Grade must be between 0 and 100."

/-- Method `Student.calculate_average`: mean of the grades, `0.0` when empty. -/
def Student.calculate_average (s : Student) : ℚ :=
  if s.grades = [] then 0 else s.grades.sum / s.grades.length

/-- Method `Student.get_performance`: the five-bucket labelling policy. -/
def Student.get_performance (s : Student) : String :=
  let avg := s.calculate_average
  if 90 ≤ avg then "Excellent"
  else if 80 ≤ avg then "Good"
  else if 70 ≤ avg then "Average"
  else if 60 ≤ avg then "Below Average"
  else "Poor"

/-- JSON values as produced by `json.load` for this data file. -/
inductive Json where
  | num (q : ℚ)
  | str (s : String)
  | arr (items : List Json)
  | obj (fields : List (String × Json))
  | boolean (b : Bool)
  | null

/-- Python `data[k]` on a dict: first binding of the key, `none` models the
`KeyError`. -/
def jsonGet (fields : List (String × Json)) (k : String) : Option Json :=
  (fields.find? (fun p => p.1 == k)).map (fun p => p.2)

/-- Reads one JSON number, failing on any other shape. -/
def jsonNum : Json → Option ℚ
  | .num q => some q
  | _ => none

/-- Reads a list of JSON numbers, failing at the first non-number. -/
def jsonNums : List Json → Option (List ℚ)
  | [] => some []
  | j :: js =>
    match jsonNum j, jsonNums js with
    | some v, some vs => some (v :: vs)
    | _, _ => none

/-- Method `Student.to_dict`: the JSON object with the three fields. -/
def Student.to_dict (s : Student) : Json :=
  .obj [("student_id", .str s.student_id), ("name", .str s.name),
    ("grades", .arr (s.grades.map Json.num))]

/-- Classmethod `Student.from_dict`: reads the three fields, raising `KeyError`
(modelled as `none`) when one is missing.  The Python code performs no type
validation on the field values; the model additionally requires the shapes that
`to_dict` produces and treats ill-typed fields as malformed entries. -/
def Student.from_dict (data : Json) : Option Student :=
  match data with
  | .obj fields =>
    match jsonGet fields "student_id", jsonGet fields "name",
        jsonGet fields "grades" with
    | some (.str sid), some (.str nm), some (.arr gjs) =>
      (jsonNums gjs).map (fun gs => Student.mk sid nm gs)
    | _, _, _ => none
  | _ => none

/-- The `self.students` dict: Python dicts preserve insertion order, so the
model is an insertion-ordered association list. -/
abbrev Dict := List (String × Student)

/-- Python `k in d`. -/
def dictContains (d : Dict) (k : String) : Bool :=
  d.any (fun p => p.1 == k)

/-- Python `d[k]` lookup (first binding). -/
def dictFind (d : Dict) (k : String) : Option Student :=
  (d.find? (fun p => p.1 == k)).map (fun p => p.2)

/-- Python `d[k] = v`: overwrites in place keeping the position when the key is
present, appends otherwise. -/
def dictInsert (d : Dict) (k : String) (v : Student) : Dict :=
  if dictContains d k then d.map (fun p => if p.1 == k then (k, v) else p)
  else d ++ [(k, v)]

/-- State of the persisted `students.json` as seen by `load_data`: absent file,
a read that raises before any entry is processed (unreadable file, invalid
JSON, or a non-iterable top level), or a successfully parsed array of items. -/
inductive Store where
  | absent
  | unreadable
  | data (items : List Json)

/-- The entry loop of `load_data`: entries are converted and inserted one by
one; the first malformed entry raises out of the loop into the surrounding
`except`, which prints a warning and KEEPS the entries inserted so far (the
dict is not cleared). -/
def load_items : List Json → Dict → Dict
  | [], acc => acc
  | item :: rest, acc =>
    match Student.from_dict item with
    | some st => load_items rest (dictInsert acc st.student_id st)
    | none => acc

/-- Method `load_data`: an absent file starts fresh; a total read failure is
caught, leaving the dict empty; otherwise the items are loaded in order. -/
def load_data : Store → Dict
  | .absent => []
  | .unreadable => []
  | .data items => load_items items []

/-- Method `save_data`: dumps `to_dict` of every student in dict order. -/
def save_data (d : Dict) : Store :=
  .data ((d.map (fun p => p.2)).map Student.to_dict)

/-- State of one system instance: the students dict plus the persisted file. -/
structure SysState where
  students : Dict
  file : Store

/-- Method `register_student` with the two console inputs as arguments: the id
is stripped and must be non-empty and fresh; the name is stripped and must be
non-empty; on success the new zero-grade student is inserted and `save_data` is
called before returning.  Every failure path returns before any mutation. -/
def register_student (st : SysState) (student_id_input name_input : String) :
    SysState × Bool :=
  let student_id := Py.pyStrip student_id_input
  if student_id = "" then (st, false)
  else if dictContains st.students student_id then (st, false)
  else
    let nm := Py.pyStrip name_input
    if nm = "" then (st, false)
    else
      let students := dictInsert st.students student_id ⟨student_id, nm, []⟩
      (⟨students, save_data students⟩, true)

/-- Method `add_grade` with the two console inputs as arguments: the id is
stripped and must be present; the grade input is parsed as a float (failure is
caught); `Student.add_grade` may raise `ValueError` (caught, no mutation); on
success the mutated student is in the dict and `save_data` is called before
returning. -/
def add_grade (st : SysState) (student_id_input grade_input : String) :
    SysState × Bool :=
  let student_id := Py.pyStrip student_id_input
  if dictContains st.students student_id then
    match Py.pyFloat grade_input with
    | none => (st, false)
    | some grade =>
      match dictFind st.students student_id with
      | none => (st, false)
      | some s =>
        match s.add_grade grade with
        | .error _ => (st, false)
        | .ok s2 =>
          let students := dictInsert st.students student_id s2
          (⟨students, save_data students⟩, true)
  else (st, false)

/-- The comparison relation of Python `list.sort(key=key, reverse=rev)`:
ascending by key, or descending when `rev` is set. -/
def keyLe {β : Type} [LinearOrder β] (key : Student → β) (rev : Bool)
    (a b : Student) : Prop :=
  cond rev (key b ≤ key a) (key a ≤ key b)

instance keyLeDec {β : Type} [LinearOrder β] (key : Student → β) (rev : Bool) :
    DecidableRel (keyLe key rev) := fun a b =>
  match rev with
  | true => inferInstanceAs (Decidable (key b ≤ key a))
  | false => inferInstanceAs (Decidable (key a ≤ key b))

/-- Python `list.sort(key=key, reverse=rev)` is a stable sort; any stable sort
by a total key produces the same list, so it is modelled by stable insertion
sort. -/
def pySort {β : Type} [LinearOrder β] (key : Student → β) (rev : Bool)
    (l : List Student) : List Student :=
  List.insertionSort (keyLe key rev) l

/-- Method `sort_and_display` with the console inputs as arguments: an empty
dict or an invalid choice displays nothing; otherwise a FRESH list of the dict
values is sorted by the chosen key (id, lowercased name, or average) and
returned for display.  The dict itself is never touched, so the state comes
back unchanged. -/
def sort_and_display (st : SysState) (choice_input rev_input : String) :
    SysState × Option (List Student) :=
  if st.students = [] then (st, none)
  else
    let choice := Py.pyStrip choice_input
    let rev := Py.pyLower (Py.pyStrip rev_input) == "y"
    let l := st.students.map (fun p => p.2)
    if choice = "1" then (st, some (pySort (fun s => s.student_id) rev l))
    else if choice = "2" then (st, some (pySort (fun s => Py.pyLower s.name) rev l))
    else if choice = "3" then (st, some (pySort Student.calculate_average rev l))
    else (st, none)

/-- Key coherence: every key of the dict equals the id stored inside the
student it maps to. -/
def coherent (d : Dict) : Prop :=
  ∀ p ∈ d, p.1 = p.2.student_id

/-- The keys of the dict are pairwise distinct. -/
def keysNodup (d : Dict) : Prop :=
  (d.map (fun p => p.1)).Nodup

/-- States reachable from an empty roster through successful `register_student`
and `add_grade` calls. -/
inductive Reachable : SysState → Prop where
  | start (st : SysState) : st.students = [] → Reachable st
  | reg {st st2 : SysState} {sid nm : String} :
      Reachable st → register_student st sid nm = (st2, true) → Reachable st2
  | addg {st st2 : SysState} {sid g : String} :
      Reachable st → add_grade st sid g = (st2, true) → Reachable st2

end Qwen

/-- Rosters of the line-record implementation reachable from an empty list
through successful `register_student` and `input_grades` calls. -/
inductive SGM.Reachable : List SGM.Student → Prop where
  | empty : SGM.Reachable []
  | reg {l l2 : List SGM.Student} {sid nm : String} :
      SGM.Reachable l → SGM.register_student l sid nm = (l2, true) →
      SGM.Reachable l2
  | grades {l l2 : List SGM.Student} {sid gstr : String} :
      SGM.Reachable l → SGM.input_grades l sid gstr = (l2, true) →
      SGM.Reachable l2

unseal Rat.add Rat.mul Rat.inv Rat.sub in
example : Py.pyFloat "150" = some 150 := by decide
example : Py.pyFloat "b" = none := by decide
unseal Rat.add Rat.mul Rat.inv Rat.sub in
example : Py.pyFloat "87.5" = some (175 / 2) := by decide
unseal Rat.add Rat.mul Rat.inv Rat.sub in
example : Py.pyFloat "-2e1" = some (-20) := by decide
unseal Rat.add Rat.mul Rat.inv Rat.sub in
example : Py.pyFloatStr 95 = "95.0" := by decide
unseal Rat.add Rat.mul Rat.inv Rat.sub in
example : Py.pyFloatStr (175 / 2 : ℚ) = "87.5" := by decide
example : SGM.Student.from_record "S1|a|b|" = none := by decide
unseal Rat.add Rat.mul Rat.inv Rat.sub in
example : SGM.Student.to_record ⟨"S1", "a|b", []⟩ = "S1|a|b|\n" := by decide
unseal Rat.add Rat.mul Rat.inv Rat.sub in
example : SGM.Student.from_record "S1|Ann|70,80\n" = some ⟨"S1", "Ann", [70, 80]⟩ := by decide

namespace Qwen

theorem jsonNums_map_num (gs : List ℚ) : jsonNums (gs.map Json.num) = some gs := by
  induction gs with
  | nil => rfl
  | cons g gs ih => simp [jsonNums, jsonNum, ih]

theorem from_dict_to_dict (s : Student) : Student.from_dict s.to_dict = some s := by
  simp [Student.from_dict, Student.to_dict, jsonGet, List.find?, jsonNums_map_num]

theorem dictContains_eq_false {d : Dict} {k : String} :
    dictContains d k = false ↔ ∀ p ∈ d, p.1 ≠ k := by
  simp [dictContains]

theorem dictInsert_fresh {d : Dict} {k : String} (v : Student)
    (h : dictContains d k = false) : dictInsert d k v = d ++ [(k, v)] := by
  simp [dictInsert, h]

theorem dictContains_append {d1 d2 : Dict} {k : String} :
    dictContains (d1 ++ d2) k = (dictContains d1 k || dictContains d2 k) := by
  simp [dictContains]

theorem load_items_save (ss : List Student) (acc : Dict)
    (hfresh : ∀ s ∈ ss, dictContains acc s.student_id = false)
    (hnd : (ss.map Student.student_id).Nodup) :
    load_items (ss.map Student.to_dict) acc =
      acc ++ ss.map (fun s => (s.student_id, s)) := by
  induction ss generalizing acc with
  | nil => simp [load_items]
  | cons s ss ih =>
    rw [List.map_cons, List.nodup_cons] at hnd
    obtain ⟨hnotin, hnd2⟩ := hnd
    have hs : dictContains acc s.student_id = false := hfresh s (by simp)
    have hrest : ∀ t ∈ ss, dictContains (acc ++ [(s.student_id, s)]) t.student_id = false := by
      intro t ht
      have h1 : dictContains acc t.student_id = false := hfresh t (by simp [ht])
      have h2 : t.student_id ≠ s.student_id := by
        intro he
        exact hnotin (by simpa [he] using List.mem_map_of_mem Student.student_id ht)
      rw [dictContains_append, h1]
      simp [dictContains, Ne.symm h2]
    calc load_items (Student.to_dict s :: ss.map Student.to_dict) acc
        = load_items (ss.map Student.to_dict) (dictInsert acc s.student_id s) := by
          simp [load_items, from_dict_to_dict]
      _ = load_items (ss.map Student.to_dict) (acc ++ [(s.student_id, s)]) := by
          rw [dictInsert_fresh _ hs]
      _ = acc ++ [(s.student_id, s)] ++ ss.map (fun s => (s.student_id, s)) :=
          ih _ hrest hnd2
      _ = acc ++ (s :: ss).map (fun s => (s.student_id, s)) := by simp

theorem roundtrip_of_coherent {d : Dict} (hc : coherent d) (hk : keysNodup d) :
    load_data (save_data d) = d := by
  have hids : (d.map (fun p => p.2)).map Student.student_id = d.map (fun p => p.1) := by
    rw [List.map_map]
    exact List.map_congr_left (fun p hp => (hc p hp).symm)
  have h := load_items_save (d.map (fun p => p.2)) [] (fun s _ => rfl)
    (by rw [hids]; exact hk)
  simp only [load_data, save_data] at h ⊢
  rw [h, List.nil_append, List.map_map]
  refine (List.map_congr_left ?_).trans (List.map_id d)
  intro p hp
  show (p.2.student_id, p.2) = p
  rw [← hc p hp]

end Qwen

namespace Qwen

theorem coherent_nil : coherent [] := by
  intro p hp
  cases hp

theorem coherent_dictInsert {d : Dict} {k : String} {v : Student}
    (hc : coherent d) (hv : v.student_id = k) : coherent (dictInsert d k v) := by
  unfold dictInsert
  split
  · intro p hp
    obtain ⟨q, hq, hpq⟩ := List.mem_map.mp hp
    by_cases hk : q.1 = k
    · simp only [hk, beq_self_eq_true, if_pos] at hpq
      rw [← hpq, hv]
    · simp only [beq_eq_false_iff_ne.mpr hk, Bool.false_eq_true, if_neg, if_false] at hpq
      rw [← hpq]
      exact hc q hq
  · intro p hp
    rcases List.mem_append.mp hp with h | h
    · exact hc p h
    · simp at h
      rw [h, hv]

theorem keys_dictInsert_of_contains {d : Dict} {k : String} {v : Student}
    (h : dictContains d k = true) :
    (dictInsert d k v).map (fun p => p.1) = d.map (fun p => p.1) := by
  unfold dictInsert
  rw [if_pos h, List.map_map]
  refine List.map_congr_left ?_
  intro p _
  by_cases hk : p.1 = k
  · simp [hk]
  · simp [hk]

theorem keysNodup_dictInsert {d : Dict} {k : String} {v : Student}
    (hn : keysNodup d) : keysNodup (dictInsert d k v) := by
  unfold keysNodup
  rcases hb : dictContains d k with _ | _
  · rw [dictInsert_fresh v hb, List.map_append]
    apply List.Nodup.append hn (by simp)
    intro a ha hb2
    simp only [List.map_cons, List.map_nil, List.mem_singleton] at hb2
    obtain ⟨q, hq, hq1⟩ := List.mem_map.mp ha
    subst hb2
    exact (dictContains_eq_false.mp hb q hq) hq1
  · rw [keys_dictInsert_of_contains hb]
    exact hn

theorem dictFind_coherent {d : Dict} {k : String} {s : Student}
    (hc : coherent d) (h : dictFind d k = some s) : s.student_id = k := by
  unfold dictFind at h
  rcases hf : d.find? (fun p => p.1 == k) with _ | p
  · rw [hf] at h
    cases h
  · rw [hf] at h
    have h2 : p.2 = s := by simpa using h
    have hp : p.1 = k := by simpa using List.find?_some hf
    have hm : p ∈ d := List.mem_of_find?_eq_some hf
    rw [← h2, ← hc p hm, hp]

theorem register_success {st st2 : SysState} {sid nm : String}
    (h : register_student st sid nm = (st2, true)) :
    Py.pyStrip sid ≠ "" ∧
    dictContains st.students (Py.pyStrip sid) = false ∧
    Py.pyStrip nm ≠ "" ∧
    st2.students = dictInsert st.students (Py.pyStrip sid)
      ⟨Py.pyStrip sid, Py.pyStrip nm, []⟩ ∧
    st2.file = save_data st2.students := by
  unfold register_student at h
  simp only at h
  split at h
  · cases h
  · split at h
    · cases h
    · split at h
      · cases h
      · next h1 h2 h3 =>
        injection h with h4 h5
        subst h4
        refine ⟨h1, by simpa using h2, h3, rfl, rfl⟩

theorem add_grade_success {st st2 : SysState} {sid g : String}
    (h : add_grade st sid g = (st2, true)) :
    ∃ q s s2, dictFind st.students (Py.pyStrip sid) = some s ∧
      Py.pyFloat g = some q ∧
      s.add_grade q = .ok s2 ∧
      s2.student_id = s.student_id ∧
      st2.students = dictInsert st.students (Py.pyStrip sid) s2 ∧
      st2.file = save_data st2.students := by
  unfold add_grade at h
  simp only at h
  split at h
  · split at h
    · cases h
    · next q hq =>
      split at h
      · cases h
      · next s hs =>
        split at h
        · cases h
        · next s2 hs2 =>
          injection h with h4 h5
          subst h4
          refine ⟨q, s, s2, hs, hq, hs2, ?_, rfl, rfl⟩
          unfold Student.add_grade at hs2
          split at hs2
          · cases hs2
            rfl
          · cases hs2
  · cases h

theorem reachable_inv {st : SysState} (h : Reachable st) :
    coherent st.students ∧ keysNodup st.students := by
  induction h with
  | start st hs =>
    rw [hs]
    exact ⟨coherent_nil, List.nodup_nil⟩
  | reg hr hstep ih =>
    obtain ⟨-, -, -, hstu, -⟩ := register_success hstep
    rw [hstu]
    exact ⟨coherent_dictInsert ih.1 rfl, keysNodup_dictInsert ih.2⟩
  | addg hr hstep ih =>
    obtain ⟨q, s, s2, hfind, -, -, hid, hstu, -⟩ := add_grade_success hstep
    rw [hstu]
    refine ⟨coherent_dictInsert ih.1 ?_, keysNodup_dictInsert ih.2⟩
    rw [hid]
    exact dictFind_coherent ih.1 hfind

end Qwen

namespace SGM

theorem register_appends {l l2 : List Student} {sid nm : String}
    (h : register_student l sid nm = (l2, true)) :
    (l.any (fun s => s.student_id == sid)) = false ∧ l2 = l ++ [⟨sid, nm, []⟩] := by
  unfold register_student at h
  split at h
  · cases h
  · next hb =>
    injection h with h1 h2
    exact ⟨Bool.eq_false_iff.mpr hb, h1.symm⟩

theorem register_duplicate {l : List Student} {sid : String} (nm : String)
    (h : l.any (fun s => s.student_id == sid) = true) :
    register_student l sid nm = (l, false) := by
  unfold register_student
  rw [if_pos h]

theorem extendFirst_map_id (sid : String) (gs : List ℚ) (l : List Student) :
    (extendFirst sid gs l).map Student.student_id = l.map Student.student_id := by
  induction l with
  | nil => rfl
  | cons s rest ih =>
    unfold extendFirst
    split
    · simp
    · simp [ih]

theorem input_grades_map_id {l l2 : List Student} {sid gstr : String} {b : Bool}
    (h : input_grades l sid gstr = (l2, b)) :
    l2.map Student.student_id = l.map Student.student_id := by
  unfold input_grades at h
  split at h
  · injection h with h1 h2
    rw [← h1]
  · split at h
    · injection h with h1 h2
      rw [← h1]
    · injection h with h1 h2
      rw [← h1]
      exact extendFirst_map_id ..

theorem reachable_nodup {l : List Student} (h : Reachable l) :
    (l.map Student.student_id).Nodup := by
  induction h with
  | empty => exact List.nodup_nil
  | reg hr hstep ih =>
    obtain ⟨hany, rfl⟩ := register_appends hstep
    rw [List.map_append, List.map_cons, List.map_nil]
    apply List.Nodup.append ih (List.nodup_singleton _)
    intro a ha hb
    simp only [List.mem_singleton] at hb
    subst hb
    obtain ⟨s, hs, hsid⟩ := List.mem_map.mp ha
    have := List.any_eq_false.mp hany s hs
    simp [hsid] at this
  | grades hr hstep ih =>
    rw [input_grades_map_id hstep]
    exact ih

theorem load_students_skip {bad : String} (l1 l2 : List String)
    (h : Student.from_record bad = none) :
    load_students (.readable (l1 ++ bad :: l2)) =
      .ok (l1.filterMap Student.from_record ++ l2.filterMap Student.from_record) := by
  simp only [load_students, List.filterMap_append]
  rw [List.filterMap_cons_none h]

end SGM

namespace Qwen

theorem load_items_stop {bad : Json} (h : Student.from_dict bad = none)
    (i1 rest : List Json) (acc : Dict) :
    load_items (i1 ++ bad :: rest) acc = load_items i1 acc := by
  induction i1 generalizing acc with
  | nil => simp [load_items, h]
  | cons j js ih =>
    rw [List.cons_append]
    cases hj : Student.from_dict j with
    | none => simp [load_items, hj]
    | some st => simp [load_items, hj, ih]

end Qwen

section StableSort

variable {α : Type} {β : Type} [LinearOrder β]

theorem filter_orderedInsert_pos (r : α → α → Prop) [DecidableRel r]
    (p : α → Bool) (a : α) (hskip : ∀ b, ¬ r a b → p b = false)
    (hpa : p a = true) :
    ∀ m : List α, (List.orderedInsert r a m).filter p = a :: m.filter p := by
  intro m
  induction m with
  | nil => simp [List.orderedInsert, hpa]
  | cons b m ih =>
    rw [List.orderedInsert]
    split
    · rw [List.filter_cons_of_pos hpa]
    · next hr =>
      rw [List.filter_cons_of_neg (by simp [hskip b hr]), ih,
        List.filter_cons_of_neg (by simp [hskip b hr])]

theorem filter_orderedInsert_neg (r : α → α → Prop) [DecidableRel r]
    (p : α → Bool) (a : α) (hpa : p a = false) :
    ∀ m : List α, (List.orderedInsert r a m).filter p = m.filter p := by
  intro m
  induction m with
  | nil => simp [List.orderedInsert, hpa]
  | cons b m ih =>
    rw [List.orderedInsert]
    split
    · rw [List.filter_cons_of_neg (by simp [hpa])]
    · rcases hpb : p b with _ | _
      · rw [List.filter_cons_of_neg (by simp [hpb]), ih,
          List.filter_cons_of_neg (by simp [hpb])]
      · rw [List.filter_cons_of_pos hpb, ih, List.filter_cons_of_pos hpb]

theorem filter_insertionSort (r : α → α → Prop) [DecidableRel r] (key : α → β)
    (hr : ∀ a b, ¬ r a b → key b ≠ key a) (k : β) (l : List α) :
    (List.insertionSort r l).filter (fun x => key x == k) =
      l.filter (fun x => key x == k) := by
  induction l with
  | nil => rfl
  | cons a l ih =>
    rw [List.insertionSort]
    by_cases hk : key a = k
    · rw [filter_orderedInsert_pos r _ a ?hskip (by simp [hk]), ih,
        List.filter_cons_of_pos (by simp [hk])]
      case hskip =>
        intro b hb
        have : key b ≠ k := fun he => hr a b hb (he.trans hk.symm)
        simp [this]
    · rw [filter_orderedInsert_neg r _ a (by simp [hk]), ih,
        List.filter_cons_of_neg (by simp [hk])]

end StableSort

namespace Qwen

instance keyLeTotal {β : Type} [LinearOrder β] (key : Student → β) (rev : Bool) :
    IsTotal Student (keyLe key rev) where
  total a b := by
    cases rev <;> simp only [keyLe, cond] <;> exact le_total _ _

instance keyLeTrans {β : Type} [LinearOrder β] (key : Student → β) (rev : Bool) :
    IsTrans Student (keyLe key rev) where
  trans a b c hab hbc := by
    cases rev <;> simp only [keyLe, cond] at hab hbc ⊢
    · exact le_trans hab hbc
    · exact le_trans hbc hab

theorem keyLe_not_imp_ne {β : Type} [LinearOrder β] (key : Student → β)
    (rev : Bool) : ∀ a b, ¬ keyLe key rev a b → key b ≠ key a := by
  intro a b h
  cases rev <;> simp only [keyLe, cond, not_le] at h
  · exact ne_of_lt h
  · exact ne_of_gt h

theorem pySort_perm {β : Type} [LinearOrder β] (key : Student → β) (rev : Bool)
    (l : List Student) : (pySort key rev l).Perm l :=
  List.perm_insertionSort _ l

theorem pySort_sorted {β : Type} [LinearOrder β] (key : Student → β) (rev : Bool)
    (l : List Student) : List.Pairwise (keyLe key rev) (pySort key rev l) :=
  List.sorted_insertionSort _ l

theorem pySort_stable {β : Type} [LinearOrder β] (key : Student → β) (rev : Bool)
    (k : β) (l : List Student) :
    (pySort key rev l).filter (fun s => key s == k) =
      l.filter (fun s => key s == k) :=
  filter_insertionSort _ key (keyLe_not_imp_ne key rev) k l

end Qwen

namespace Qwen

theorem coherent_load_items (items : List Json) (acc : Dict) (h : coherent acc) :
    coherent (load_items items acc) := by
  induction items generalizing acc with
  | nil => exact h
  | cons j js ih =>
    cases hj : Student.from_dict j with
    | none =>
      rw [show load_items (j :: js) acc = acc by simp [load_items, hj]]
      exact h
    | some st =>
      rw [show load_items (j :: js) acc = load_items js (dictInsert acc st.student_id st) by
        simp [load_items, hj]]
      exact ih _ (coherent_dictInsert h rfl)

theorem register_fail {st st2 : SysState} {sid nm : String}
    (h : register_student st sid nm = (st2, false)) : st2 = st := by
  unfold register_student at h
  simp only at h
  split at h
  · cases h
    rfl
  · split at h
    · cases h
      rfl
    · split at h
      · cases h
        rfl
      · cases h

theorem add_grade_fail {st st2 : SysState} {sid g : String}
    (h : add_grade st sid g = (st2, false)) : st2 = st := by
  unfold add_grade at h
  simp only at h
  split at h
  · split at h
    · cases h
      rfl
    · split at h
      · cases h
        rfl
      · split at h
        · cases h
          rfl
        · cases h
  · cases h
    rfl

end Qwen

/-- C6: `average` is a pure total function: on a non-empty grade sequence it is
the arithmetic mean of the grades, and on an empty grade sequence it is exactly
`0.0`, in both implementations (`SGM.Student.average` and
`Qwen.Student.calculate_average`); no division by zero and no error can occur. -/
theorem average_spec (s : SGM.Student) (t : Qwen.Student) :
    (s.grades = [] → s.average = 0) ∧
    (s.grades ≠ [] → s.average = s.grades.sum / s.grades.length) ∧
    (t.grades = [] → t.calculate_average = 0) ∧
    (t.grades ≠ [] → t.calculate_average = t.grades.sum / t.grades.length) :=
  ⟨fun h => by simp [SGM.Student.average, h],
    fun h => by simp [SGM.Student.average, h],
    fun h => by simp [Qwen.Student.calculate_average, h],
    fun h => by simp [Qwen.Student.calculate_average, h]⟩

/-- Witness for C6 at concrete records: the empty record averages to zero and a
two-grade record averages to the exact mean. -/
theorem average_witness :
    SGM.Student.average ⟨"S1", "A", []⟩ = 0 ∧
    SGM.Student.average ⟨"S1", "A", [80, 90]⟩ = 85 ∧
    Qwen.Student.calculate_average ⟨"S1", "A", []⟩ = 0 ∧
    Qwen.Student.calculate_average ⟨"S1", "A", [95, 85]⟩ = 90 := by
  have h1 := (average_spec ⟨"S1", "A", []⟩ ⟨"S1", "A", []⟩).1 rfl
  have h2 := (average_spec ⟨"S1", "A", [80, 90]⟩ ⟨"S1", "A", []⟩).2.1 (by simp)
  have h3 := (average_spec ⟨"S1", "A", []⟩ ⟨"S1", "A", []⟩).2.2.1 rfl
  have h4 := (average_spec ⟨"S1", "A", []⟩ ⟨"S1", "A", [95, 85]⟩).2.2.2 (by simp)
  refine ⟨h1, ?_, h3, ?_⟩
  · rw [h2]
    norm_num
  · rw [h4]
    norm_num

/-- C7: the performance label is a total step function of the average: in the
Qwen implementation `get_performance` yields Excellent, Good, Average, Below
Average and Poor exactly on the bands 90 and above, 80 to 90, 70 to 80, 60 to
70, and below 60; in the line-record implementation the simpler policy `status`
yields PASS exactly when the average is at least 50 and FAIL otherwise. -/
theorem performance_label_spec (t : Qwen.Student) (s : SGM.Student) :
    (t.get_performance = "Excellent" ↔ 90 ≤ t.calculate_average) ∧
    (t.get_performance = "Good" ↔
      80 ≤ t.calculate_average ∧ t.calculate_average < 90) ∧
    (t.get_performance = "Average" ↔
      70 ≤ t.calculate_average ∧ t.calculate_average < 80) ∧
    (t.get_performance = "Below Average" ↔
      60 ≤ t.calculate_average ∧ t.calculate_average < 70) ∧
    (t.get_performance = "Poor" ↔ t.calculate_average < 60) ∧
    (s.status = "PASS" ↔ 50 ≤ s.average) ∧
    (s.status = "FAIL" ↔ s.average < 50) := by
  unfold Qwen.Student.get_performance SGM.Student.status
  simp only
  split_ifs with h1 h2 h3 h4 h5 <;>
    refine ⟨?_, ?_, ?_, ?_, ?_, ?_, ?_⟩ <;>
    first
      | exact iff_of_true rfl (by linarith)
      | exact iff_of_true rfl (by constructor <;> linarith)
      | exact iff_of_false (by decide) (by intro hx; linarith)

unseal Rat.add Rat.mul Rat.inv Rat.sub in
/-- C2 counterexample: in `student_grade_manager.py` the grade-input path
performs no range validation at all: entering the out-of-range grade `150` for
a registered student succeeds and appends `150` to the grade sequence, refuting
the claim that every grade outside `[0, 100]` is rejected. -/
theorem sgm_out_of_range_accepted :
    SGM.input_grades [⟨"S1", "A", []⟩] "S1" "150" = ([⟨"S1", "A", [150]⟩], true) := by
  decide

/-- C2 amended: in the Qwen implementation `Student.add_grade` appends exactly
the in-range grades and raises `ValueError` on any grade outside `[0, 100]`,
leaving the grade sequence unchanged (the roster-level `add_grade` returns the
state untouched); the line-record implementation performs no range check. -/
theorem qwen_add_grade_spec (s : Qwen.Student) (g : ℚ) (st : Qwen.SysState)
    (sid gstr : String) :
    (0 ≤ g ∧ g ≤ 100 →
      s.add_grade g = .ok ⟨s.student_id, s.name, s.grades ++ [g]⟩) ∧
    (¬ (0 ≤ g ∧ g ≤ 100) →
      s.add_grade g = .error "Grade must be between 0 and 100.") ∧
    (Py.pyFloat gstr = some g → ¬ (0 ≤ g ∧ g ≤ 100) →
      Qwen.add_grade st sid gstr = (st, false)) := by
  refine ⟨fun h => ?_, fun h => ?_, fun hg h => ?_⟩
  · unfold Qwen.Student.add_grade
    rw [if_pos h]
  · unfold Qwen.Student.add_grade
    rw [if_neg h]
  · unfold Qwen.add_grade
    simp only
    split
    · rw [hg]
      cases hf : Qwen.dictFind st.students (Py.pyStrip sid) with
      | none => simp only [hf]
      | some s2 =>
        have he : s2.add_grade g = Except.error "Grade must be between 0 and 100." := by
          unfold Qwen.Student.add_grade
          rw [if_neg h]
        simp only [hf, he]
    · rfl

unseal Rat.add Rat.mul Rat.inv Rat.sub in
/-- Witness for C2 (amended): the boundary grades succeed, `150` is rejected by
the record operation, and the system state survives an out-of-range grade entry
unchanged. -/
theorem qwen_add_grade_witness :
    Qwen.Student.add_grade ⟨"S1", "A", []⟩ 100 = .ok ⟨"S1", "A", [100]⟩ ∧
    Qwen.Student.add_grade ⟨"S1", "A", []⟩ 150 =
      .error "Grade must be between 0 and 100." ∧
    Qwen.add_grade ⟨[("S1", ⟨"S1", "A", []⟩)], .data []⟩ "S1" "150" =
      (⟨[("S1", ⟨"S1", "A", []⟩)], .data []⟩, false) := by
  refine ⟨(qwen_add_grade_spec ⟨"S1", "A", []⟩ 100 ⟨[], .data []⟩ "" "").1
      (by constructor <;> norm_num),
    (qwen_add_grade_spec ⟨"S1", "A", []⟩ 150 ⟨[], .data []⟩ "" "").2.1 ?_,
    (qwen_add_grade_spec ⟨"S1", "A", []⟩ 150
      ⟨[("S1", ⟨"S1", "A", []⟩)], .data []⟩ "S1" "150").2.2 (by decide) ?_⟩
  all_goals intro hx; norm_num at hx

/-- C9 counterexample: in `student_grade_manager.py` registration performs no
emptiness validation: registering with the empty id succeeds and inserts a
record with empty id, refuting the claim that an empty id is always rejected. -/
theorem sgm_register_empty_counterexample :
    SGM.register_student [] "" "X" = ([⟨"", "X", []⟩], true) := rfl

/-- C9 amended: in the Qwen implementation, whenever the entered id or name is
empty after stripping whitespace, `register_student` fails and returns the
state untouched: no record is inserted and no save is triggered.  The
line-record implementation performs no emptiness check at all. -/
theorem qwen_register_empty_spec (st : Qwen.SysState) (sid nm : String)
    (h : Py.pyStrip sid = "" ∨ Py.pyStrip nm = "") :
    Qwen.register_student st sid nm = (st, false) := by
  unfold Qwen.register_student
  simp only
  split
  · rfl
  · next hne =>
    split
    · rfl
    · rcases h with h | h
      · exact absurd h hne
      · rw [if_pos h]

/-- Witness for C9 (amended) at concrete inputs: a whitespace-only id and a
whitespace-only name are both rejected without touching the state. -/
theorem qwen_register_empty_witness :
    Qwen.register_student ⟨[], .data []⟩ "  " "Bob" = (⟨[], .data []⟩, false) ∧
    Qwen.register_student ⟨[], .data []⟩ "S1" " " = (⟨[], .data []⟩, false) :=
  ⟨qwen_register_empty_spec ⟨[], .data []⟩ "  " "Bob" (Or.inl rfl),
    qwen_register_empty_spec ⟨[], .data []⟩ "S1" " " (Or.inr rfl)⟩

/-- C5 counterexample: in `student_grade_manager.py` a successful registration
mutates only the in-memory list and writes nothing: afterwards the persisted
file (still empty) differs from the serialization of the current roster, so
mutations are NOT flushed before returning; only the save-and-exit menu action
writes the file. -/
theorem sgm_no_save_counterexample :
    (SGM.registerAction ⟨[], []⟩ "S1" "Alice").students = [⟨"S1", "Alice", []⟩] ∧
    (SGM.registerAction ⟨[], []⟩ "S1" "Alice").file = [] ∧
    SGM.save_students [⟨"S1", "Alice", []⟩] = ["S1|Alice|\n"] ∧
    ([] : List String) ≠ ["S1|Alice|\n"] := by
  refine ⟨rfl, rfl, rfl, by simp⟩

/-- C5 amended: in the Qwen implementation every successful mutating operation
(registration of a new student, grade addition to an existing student) calls
`save_data` before returning, so on return the persisted store holds exactly
the serialization of the current roster; the line-record implementation
persists only on the explicit save-and-exit action. -/
theorem qwen_save_after_mutation (st st2 st3 : Qwen.SysState)
    (sid nm gid gstr : String) :
    (Qwen.register_student st sid nm = (st2, true) →
      st2.file = Qwen.save_data st2.students) ∧
    (Qwen.add_grade st gid gstr = (st3, true) →
      st3.file = Qwen.save_data st3.students) := by
  constructor
  · intro h
    exact (Qwen.register_success h).2.2.2.2
  · intro h
    obtain ⟨q, s, s2, -, -, -, -, -, hf⟩ := Qwen.add_grade_success h
    exact hf

/-- Witness for C5 (amended): after a concrete successful registration the file
component holds the serialization of the roster. -/
theorem qwen_save_after_mutation_witness :
    ((Qwen.register_student ⟨[], .data []⟩ "S1" "Alice").1).file =
      Qwen.save_data ((Qwen.register_student ⟨[], .data []⟩ "S1" "Alice").1).students :=
  (qwen_save_after_mutation ⟨[], .data []⟩
    ((Qwen.register_student ⟨[], .data []⟩ "S1" "Alice").1) ⟨[], .data []⟩
    "S1" "Alice" "x" "0").1 rfl

/-- C4 counterexample: loading is not as forgiving as claimed.  In
`student_grade_manager.py` the `open` call is outside any `try`, so a file that
exists but cannot be read raises out of `load_students` (a crash, not an empty
roster).  In the Qwen implementation a malformed entry aborts the whole loading
loop: with items good, malformed, good the second well-formed entry is NOT
loaded even though `from_dict` accepts it on its own. -/
theorem load_failure_counterexample :
    SGM.load_students .unreadable = .error "IOError" ∧
    Qwen.Student.from_dict (Qwen.Student.to_dict ⟨"S2", "C", []⟩) =
      some ⟨"S2", "C", []⟩ ∧
    Qwen.load_data (.data [Qwen.Student.to_dict ⟨"S1", "A", []⟩,
      Qwen.Json.obj [("name", Qwen.Json.str "B")],
      Qwen.Student.to_dict ⟨"S2", "C", []⟩]) = [("S1", ⟨"S1", "A", []⟩)] :=
  ⟨rfl, rfl, rfl⟩

/-- C4 amended: an absent store yields an empty roster in both implementations;
in the line-record implementation each malformed LINE is skipped and all
well-formed lines, including those after a malformed one, are still loaded; in
the Qwen implementation a total read failure degrades to an empty roster, but a
malformed ENTRY aborts the load keeping only the entries before it, and in the
line-record implementation an unreadable existing file raises instead of
degrading. -/
theorem load_degrade_spec (l1 l2 : List String) (bad : String)
    (items1 rest : List Qwen.Json) (badj : Qwen.Json)
    (hbad : SGM.Student.from_record bad = none)
    (hbadj : Qwen.Student.from_dict badj = none) :
    SGM.load_students .absent = .ok [] ∧
    SGM.load_students (.readable (l1 ++ bad :: l2)) =
      .ok (l1.filterMap SGM.Student.from_record ++
        l2.filterMap SGM.Student.from_record) ∧
    Qwen.load_data .absent = [] ∧
    Qwen.load_data .unreadable = [] ∧
    Qwen.load_data (.data (items1 ++ badj :: rest)) =
      Qwen.load_data (.data items1) :=
  ⟨rfl, SGM.load_students_skip l1 l2 hbad, rfl, rfl,
    Qwen.load_items_stop hbadj items1 rest []⟩

/-- Witness for C4 (amended) on concrete stores: a malformed middle line is
skipped while both surrounding well-formed lines load, and a malformed middle
JSON entry truncates the load after the first entry. -/
theorem load_degrade_witness :
    SGM.load_students (.readable (["S1|Ann|\n"] ++ "garbage" :: ["S2|Bob|\n"])) =
      .ok [⟨"S1", "Ann", []⟩, ⟨"S2", "Bob", []⟩] ∧
    Qwen.load_data (.data ([Qwen.Student.to_dict ⟨"S1", "A", []⟩] ++
      Qwen.Json.obj [("name", Qwen.Json.str "B")] ::
        [Qwen.Student.to_dict ⟨"S2", "C", []⟩])) = [("S1", ⟨"S1", "A", []⟩)] := by
  have h := load_degrade_spec ["S1|Ann|\n"] ["S2|Bob|\n"] "garbage"
    [Qwen.Student.to_dict ⟨"S1", "A", []⟩] [Qwen.Student.to_dict ⟨"S2", "C", []⟩]
    (Qwen.Json.obj [("name", Qwen.Json.str "B")]) rfl rfl
  refine ⟨?_, ?_⟩
  · rw [h.2.1]
    rfl
  · rw [h.2.2.2.2]
    rfl

/-- C1 counterexample: the pipe-delimited round trip loses records as soon as a
name contains the `|` delimiter.  The roster holding the single student with id
S1 and name a|b is built by one successful `register_student` call, yet saving
and loading it yields the empty roster: the written line S1|a|b| splits into
four fields, the grade field b fails float parsing, and the line is skipped. -/
theorem sgm_roundtrip_counterexample :
    SGM.register_student [] "S1" "a|b" = ([⟨"S1", "a|b", []⟩], true) ∧
    SGM.save_students [⟨"S1", "a|b", []⟩] = ["S1|a|b|\n"] ∧
    SGM.load_students (.readable (SGM.save_students [⟨"S1", "a|b", []⟩])) =
      .ok [] ∧
    ([] : List SGM.Student) ≠ [⟨"S1", "a|b", []⟩] := by
  refine ⟨rfl, rfl, rfl, by simp⟩

/-- C1 amended: in the Qwen implementation the round trip is exact: for every
system state reachable from an empty roster through successful
`register_student` and `add_grade` calls (arbitrary input strings, grades
validated to `[0, 100]`), loading the saved store reproduces the roster with
the same ids, names, grade sequences and order.  In the line-record
implementation the round trip can lose records when an id or name contains the
pipe delimiter. -/
theorem qwen_roundtrip_of_reachable {st : Qwen.SysState}
    (h : Qwen.Reachable st) :
    Qwen.load_data (Qwen.save_data st.students) = st.students := by
  obtain ⟨hc, hk⟩ := Qwen.reachable_inv h
  exact Qwen.roundtrip_of_coherent hc hk

unseal Rat.add Rat.mul Rat.inv Rat.sub in
/-- Witness for C1 (amended): a concrete state reached by two registrations and
one grade addition round-trips exactly. -/
theorem qwen_roundtrip_witness :
    Qwen.load_data (Qwen.save_data
      ((Qwen.add_grade ((Qwen.register_student
        ((Qwen.register_student ⟨[], .data []⟩ "S1" "Alice").1)
        "S2" "Bob").1) "S1" "95").1).students) =
      ((Qwen.add_grade ((Qwen.register_student
        ((Qwen.register_student ⟨[], .data []⟩ "S1" "Alice").1)
        "S2" "Bob").1) "S1" "95").1).students :=
  qwen_roundtrip_of_reachable
    (@Qwen.Reachable.addg _ _ "S1" "95"
      (@Qwen.Reachable.reg _ _ "S2" "Bob"
        (@Qwen.Reachable.reg _ _ "S1" "Alice"
          (Qwen.Reachable.start ⟨[], Qwen.Store.data []⟩ rfl) rfl)
        rfl)
      rfl)

/-- C3: duplicate registration is rejected leaving the roster completely
unchanged in both implementations (the existing record is never overwritten); a
fresh id is accepted, and ids are compared by exact string equality, so ids
differing only in letter case are distinct keys; every roster reachable through
register and grade-input calls from empty has pairwise distinct ids. -/
theorem register_unique_spec (l : List SGM.Student) (s : SGM.Student)
    (sid nm : String) (st : Qwen.SysState) (qsid qnm : String)
    (hl : SGM.Reachable l) (hq : Qwen.Reachable st) :
    (s ∈ l → s.student_id = sid → SGM.register_student l sid nm = (l, false)) ∧
    (l.any (fun t => t.student_id == sid) = false →
      SGM.register_student l sid nm = (l ++ [⟨sid, nm, []⟩], true)) ∧
    (Qwen.dictContains st.students (Py.pyStrip qsid) = true →
      Qwen.register_student st qsid qnm = (st, false)) ∧
    (Qwen.dictContains st.students (Py.pyStrip qsid) = false →
      Py.pyStrip qsid ≠ "" → Py.pyStrip qnm ≠ "" →
      (Qwen.register_student st qsid qnm).2 = true) ∧
    (l.map SGM.Student.student_id).Nodup ∧
    Qwen.keysNodup st.students := by
  refine ⟨?_, ?_, ?_, ?_, SGM.reachable_nodup hl, (Qwen.reachable_inv hq).2⟩
  · intro hmem hid
    apply SGM.register_duplicate
    rw [List.any_eq_true]
    exact ⟨s, hmem, by simp [hid]⟩
  · intro hany
    unfold SGM.register_student
    rw [if_neg (by simp [hany])]
  · intro hc
    unfold Qwen.register_student
    simp [hc]
  · intro hc hs hn
    unfold Qwen.register_student
    simp [hc, hs, hn]

/-- Witness for C3 at concrete rosters: duplicate id S1 is rejected without
change; the id s1, differing from S1 only in case, registers as a distinct
entry in both implementations; the resulting two-element roster has distinct
ids. -/
theorem register_unique_witness :
    SGM.register_student [⟨"S1", "A", []⟩] "S1" "B" = ([⟨"S1", "A", []⟩], false) ∧
    SGM.register_student [⟨"S1", "A", []⟩] "s1" "B" =
      ([⟨"S1", "A", []⟩, ⟨"s1", "B", []⟩], true) ∧
    Qwen.register_student ((Qwen.register_student ⟨[], .data []⟩ "S1" "Alice").1)
      "S1" "Bob" = ((Qwen.register_student ⟨[], .data []⟩ "S1" "Alice").1, false) ∧
    (Qwen.register_student ((Qwen.register_student ⟨[], .data []⟩ "S1" "Alice").1)
      "s1" "Bob").2 = true ∧
    ([⟨"S1", "A", []⟩, ⟨"s1", "B", []⟩].map SGM.Student.student_id).Nodup := by
  have hl1 : SGM.Reachable [⟨"S1", "A", []⟩] :=
    @SGM.Reachable.reg _ _ "S1" "A" SGM.Reachable.empty rfl
  have hl2 : SGM.Reachable [⟨"S1", "A", []⟩, ⟨"s1", "B", []⟩] :=
    @SGM.Reachable.reg _ _ "s1" "B" hl1 rfl
  have hq1 : Qwen.Reachable ((Qwen.register_student ⟨[], .data []⟩ "S1" "Alice").1) :=
    @Qwen.Reachable.reg _ _ "S1" "Alice"
      (Qwen.Reachable.start ⟨[], Qwen.Store.data []⟩ rfl) rfl
  have h := register_unique_spec [⟨"S1", "A", []⟩] ⟨"S1", "A", []⟩ "S1" "B"
    ((Qwen.register_student ⟨[], .data []⟩ "S1" "Alice").1) "S1" "Bob" hl1 hq1
  have h2 := register_unique_spec [⟨"S1", "A", []⟩] ⟨"S1", "A", []⟩ "s1" "B"
    ((Qwen.register_student ⟨[], .data []⟩ "S1" "Alice").1) "s1" "Bob" hl1 hq1
  have h3 := register_unique_spec [⟨"S1", "A", []⟩, ⟨"s1", "B", []⟩]
    ⟨"S1", "A", []⟩ "x" "y"
    ((Qwen.register_student ⟨[], .data []⟩ "S1" "Alice").1) "x" "y" hl2 hq1
  exact ⟨h.1 (by simp) rfl, h2.2.1 (by decide), h.2.2.1 (by decide),
    h2.2.2.2.1 (by decide) (by decide) (by decide), h3.2.2.2.2.1⟩

unseal Rat.add Rat.mul Rat.inv Rat.sub in
/-- C8 counterexample: in `student_grade_manager.py` the sort menu action calls
`list.sort` on the roster list itself, so sorting permanently reorders the
roster: after sorting by average descending, the roster that subsequent
operations observe is the reordered list, refuting the claim that the roster
iteration and insertion order is not mutated by the call. -/
theorem sgm_sort_mutates_counterexample :
    (SGM.sortAction ⟨[⟨"A", "a", [70]⟩, ⟨"B", "b", [90]⟩], []⟩ "2").students =
      [⟨"B", "b", [90]⟩, ⟨"A", "a", [70]⟩] ∧
    (SGM.sortAction ⟨[⟨"A", "a", [70]⟩, ⟨"B", "b", [90]⟩], []⟩ "2").students ≠
      [⟨"A", "a", [70]⟩, ⟨"B", "b", [90]⟩] := by
  constructor <;> decide

/-- C8 amended: in the Qwen implementation `sort_and_display` never touches the
state (the dict keeps its insertion order); for each of the three valid choices
the displayed sequence is a fresh stable sort (`pySort`) of all records by the
chosen key: choice 1 by id, choice 2 by lowercased name, choice 3 by average,
descending exactly when the reverse answer is y; and `pySort` by any key is a
permutation of the roster values, is ordered by the key (descending when
requested), and is stable: for every key value, filtering the sorted output by
that key value yields exactly the input order.  In the line-record
implementation the sort reorders the roster list itself. -/
theorem qwen_sorted_view_spec {β : Type} [LinearOrder β]
    (key : Qwen.Student → β) (rev : Bool) (k : β) (l : List Qwen.Student)
    (st : Qwen.SysState) (c rv : String) (hne : st.students ≠ []) :
    (∀ c2 rv2, (Qwen.sort_and_display st c2 rv2).1 = st) ∧
    (Py.pyStrip c = "1" → (Qwen.sort_and_display st c rv).2 =
      some (Qwen.pySort (fun s => s.student_id)
        (Py.pyLower (Py.pyStrip rv) == "y") (st.students.map (fun p => p.2)))) ∧
    (Py.pyStrip c = "2" → (Qwen.sort_and_display st c rv).2 =
      some (Qwen.pySort (fun s => Py.pyLower s.name)
        (Py.pyLower (Py.pyStrip rv) == "y") (st.students.map (fun p => p.2)))) ∧
    (Py.pyStrip c = "3" → (Qwen.sort_and_display st c rv).2 =
      some (Qwen.pySort Qwen.Student.calculate_average
        (Py.pyLower (Py.pyStrip rv) == "y") (st.students.map (fun p => p.2)))) ∧
    (Qwen.pySort key rev l).Perm l ∧
    List.Pairwise (Qwen.keyLe key rev) (Qwen.pySort key rev l) ∧
    (Qwen.pySort key rev l).filter (fun s => key s == k) =
      l.filter (fun s => key s == k) := by
  refine ⟨?_, ?_, ?_, ?_, Qwen.pySort_perm key rev l,
    Qwen.pySort_sorted key rev l, Qwen.pySort_stable key rev k l⟩
  · intro c2 rv2
    unfold Qwen.sort_and_display
    simp only
    split
    · rfl
    · split_ifs <;> rfl
  · intro hc
    unfold Qwen.sort_and_display
    simp only
    rw [if_neg hne, hc, if_pos rfl]
  · intro hc
    unfold Qwen.sort_and_display
    simp only
    rw [if_neg hne, hc, if_neg (by decide), if_pos rfl]
  · intro hc
    unfold Qwen.sort_and_display
    simp only
    rw [if_neg hne, hc, if_neg (by decide), if_neg (by decide), if_pos rfl]

unseal Rat.add Rat.mul Rat.inv Rat.sub in
/-- Witness for C8 (amended), exercising all three sort keys on the roster
inserted in the order B (name Bob, average 90), A (name zed, average 70),
C (name amy, average 80): sorting by id ascending displays A, B, C; sorting by
case-insensitive name ascending displays amy, Bob, zed; sorting by average
descending displays the averages as 90, 80, 70; and the state comes back
unchanged. -/
theorem qwen_sorted_view_witness :
    (Qwen.sort_and_display ⟨[("B", ⟨"B", "Bob", [90]⟩), ("A", ⟨"A", "zed", [70]⟩),
      ("C", ⟨"C", "amy", [80]⟩)], .data []⟩ "3" "y").1 =
      ⟨[("B", ⟨"B", "Bob", [90]⟩), ("A", ⟨"A", "zed", [70]⟩),
        ("C", ⟨"C", "amy", [80]⟩)], .data []⟩ ∧
    (Qwen.sort_and_display ⟨[("B", ⟨"B", "Bob", [90]⟩), ("A", ⟨"A", "zed", [70]⟩),
      ("C", ⟨"C", "amy", [80]⟩)], .data []⟩ "1" "n").2 =
      some [⟨"A", "zed", [70]⟩, ⟨"B", "Bob", [90]⟩, ⟨"C", "amy", [80]⟩] ∧
    (Qwen.sort_and_display ⟨[("B", ⟨"B", "Bob", [90]⟩), ("A", ⟨"A", "zed", [70]⟩),
      ("C", ⟨"C", "amy", [80]⟩)], .data []⟩ "2" "n").2 =
      some [⟨"C", "amy", [80]⟩, ⟨"B", "Bob", [90]⟩, ⟨"A", "zed", [70]⟩] ∧
    (Qwen.sort_and_display ⟨[("B", ⟨"B", "Bob", [90]⟩), ("A", ⟨"A", "zed", [70]⟩),
      ("C", ⟨"C", "amy", [80]⟩)], .data []⟩ "3" "y").2 =
      some [⟨"B", "Bob", [90]⟩, ⟨"C", "amy", [80]⟩, ⟨"A", "zed", [70]⟩] := by
  have h := qwen_sorted_view_spec Qwen.Student.calculate_average true (0 : ℚ) []
    ⟨[("B", ⟨"B", "Bob", [90]⟩), ("A", ⟨"A", "zed", [70]⟩),
      ("C", ⟨"C", "amy", [80]⟩)], .data []⟩ "1" "n" (by simp)
  have h3 := qwen_sorted_view_spec Qwen.Student.calculate_average true (0 : ℚ) []
    ⟨[("B", ⟨"B", "Bob", [90]⟩), ("A", ⟨"A", "zed", [70]⟩),
      ("C", ⟨"C", "amy", [80]⟩)], .data []⟩ "3" "y" (by simp)
  have h2 := qwen_sorted_view_spec Qwen.Student.calculate_average true (0 : ℚ) []
    ⟨[("B", ⟨"B", "Bob", [90]⟩), ("A", ⟨"A", "zed", [70]⟩),
      ("C", ⟨"C", "amy", [80]⟩)], .data []⟩ "2" "n" (by simp)
  have erev : (Py.pyLower (Py.pyStrip "n") == "y") = false := rfl
  have sAC : ("A" : String) ≤ "C" := by rw [String.le_iff_toList_le]; decide
  have sBC : ("B" : String) ≤ "C" := by rw [String.le_iff_toList_le]; decide
  have sBA : ¬ (("B" : String) ≤ "A") := by rw [String.le_iff_toList_le]; decide
  have nZA : ¬ (("zed" : String) ≤ "amy") := by rw [String.le_iff_toList_le]; decide
  have nBA : ¬ (("bob" : String) ≤ "amy") := by rw [String.le_iff_toList_le]; decide
  have sBZ : ("bob" : String) ≤ "zed" := by rw [String.le_iff_toList_le]; decide
  refine ⟨h.1 "3" "y", ?_, ?_, ?_⟩
  · rw [h.2.1 rfl]
    simp [Qwen.pySort, Qwen.keyLe, List.insertionSort, List.orderedInsert,
      erev, sAC, sBC, sBA]
  · rw [h2.2.2.1 rfl]
    simp [Qwen.pySort, Qwen.keyLe, List.insertionSort, List.orderedInsert,
      erev, Py.pyLower, Py.chars, nZA, nBA, sBZ]
    decide
  · rw [h3.2.2.2.1 rfl]
    decide

/-- C10: key coherence of the id-keyed dict: `load_data` always produces a
coherent mapping (every key equals the id stored in its record), and both
`register_student` and `add_grade` preserve coherence whatever their outcome,
so no lookup ever observes a record stored under a foreign key. -/
theorem key_coherence_spec (store : Qwen.Store) (st st2 st3 : Qwen.SysState)
    (sid nm gid gstr : String) (b b2 : Bool) :
    Qwen.coherent (Qwen.load_data store) ∧
    (Qwen.coherent st.students → Qwen.register_student st sid nm = (st2, b) →
      Qwen.coherent st2.students) ∧
    (Qwen.coherent st.students → Qwen.add_grade st gid gstr = (st3, b2) →
      Qwen.coherent st3.students) := by
  refine ⟨?_, ?_, ?_⟩
  · cases store with
    | absent => exact Qwen.coherent_nil
    | unreadable => exact Qwen.coherent_nil
    | data items => exact Qwen.coherent_load_items items [] Qwen.coherent_nil
  · intro hc h
    cases b with
    | false =>
      rw [Qwen.register_fail h]
      exact hc
    | true =>
      obtain ⟨-, -, -, hstu, -⟩ := Qwen.register_success h
      rw [hstu]
      exact Qwen.coherent_dictInsert hc rfl
  · intro hc h
    cases b2 with
    | false =>
      rw [Qwen.add_grade_fail h]
      exact hc
    | true =>
      obtain ⟨q, s, s2, hfind, -, -, hid, hstu, -⟩ := Qwen.add_grade_success h
      rw [hstu]
      refine Qwen.coherent_dictInsert hc ?_
      rw [hid]
      exact Qwen.dictFind_coherent hc hfind

/-- Witness for C10 at concrete inputs: a loaded singleton store is coherent,
and a concrete registration starting from the empty dict keeps coherence. -/
theorem key_coherence_witness :
    Qwen.coherent (Qwen.load_data (.data [Qwen.Student.to_dict ⟨"S7", "G", []⟩])) ∧
    Qwen.coherent ((Qwen.register_student ⟨[], .data []⟩ "S1" "Alice").1).students := by
  have h := key_coherence_spec (.data [Qwen.Student.to_dict ⟨"S7", "G", []⟩])
    ⟨[], .data []⟩ ((Qwen.register_student ⟨[], .data []⟩ "S1" "Alice").1)
    ⟨[], .data []⟩ "S1" "Alice" "x" "0" true true
  exact ⟨h.1, h.2.1 (by intro p hp; cases hp) rfl⟩
